import Mathlib

/-!
Shallow embedding of `genemap2_parser/script.py`.

Strings are modelled as `List Char`.  Python's `str.strip`, `str.split`
(single-character and two-character separators) and the two anchored
regular expressions used by `process_line` are translated below.

Notes on the regex translation (ASCII inputs):
* `\s` is the Python whitespace class, `\d` the ASCII digits.
* `re.match` with a trailing `$` on a greedy leading `(.*)` group is
  equivalent to scanning the split positions from the right and taking
  the first position whose suffix matches the rest of the pattern.
* `.` not matching a newline is irrelevant here: every string handed to
  the regexes comes from one line of the input file, stripped of its
  trailing newline, so it never contains a newline character.
* In grammar A, `(\d{6})\s` is translated as "the maximal digit run has
  length exactly 6 and is followed by one whitespace character", which
  is equivalent because a digit is never whitespace.
-/

/-- Python's whitespace class for ASCII text (`str.strip`, `\s`). -/
def pySpace (c : Char) : Bool :=
  c = ' ' || c = '\t' || c = '\n' || c = '\r' || c = '\x0b' || c = '\x0c'

/-- Remove trailing whitespace (the right half of Python `str.strip`). -/
def dropTrailing (l : List Char) : List Char :=
  (l.reverse.dropWhile pySpace).reverse

/-- Python `str.strip()`: remove leading and trailing whitespace. -/
def pyStrip (l : List Char) : List Char :=
  (dropTrailing l).dropWhile pySpace

/-- Python `str.split(sep)` for a one-character separator:
`"".split(s) = [""]`, empty pieces are kept. -/
def splitOnChar (sep : Char) : List Char → List (List Char)
  | [] => [[]]
  | c :: rest =>
    if c = sep then [] :: splitOnChar sep rest
    else
      match splitOnChar sep rest with
      | [] => [[c]]
      | h :: t => (c :: h) :: t

/-- Python `line.split('\t')`. -/
def splitTab (l : List Char) : List (List Char) := splitOnChar '\t' l

/-- Python `phenotype_string.split(';')`. -/
def splitSemi (l : List Char) : List (List Char) := splitOnChar ';' l

/-- Python `s.split(', ')`: split on the two-character separator,
left to right, non-overlapping. -/
def splitCS : List Char → List (List Char)
  | [] => [[]]
  | [c] => [[c]]
  | c1 :: c2 :: rest =>
    if c1 = ',' ∧ c2 = ' ' then
      [] :: splitCS rest
    else
      match splitCS (c2 :: rest) with
      | [] => [[c1]]
      | h :: t => (c1 :: h) :: t

/-- `matcher.group(5).split(', ') if matcher.group(5) else []`: an absent
or empty inheritance group yields the empty list. -/
def inhOf (g5 : List Char) : List (List Char) :=
  if g5 = [] then [] else splitCS g5

/-- One parsed phenotype entry (the dict built for each matched segment). -/
structure PhenotypeEntry where
  name : List Char
  mim_number : Option (List Char)
  mapping_key : Char
  inheritance : List (List Char)
  deriving DecidableEq, Repr

/-- The `(|, (.*))$` tail of both regexes: the remainder after the closing
parenthesis must be empty, or start with `", "`; the returned list is the
text captured by the inner `(.*)` (empty when the tail is empty). -/
def tailInh : List Char → Option (List Char)
  | [] => some []
  | t0 :: t1 :: tr => if t0 = ',' ∧ t1 = ' ' then some tr else none
  | _ => none

/-- Matching of `,\s(\d{6})\s\((\d)\)(|, (.*))$` against a suffix of the
segment (the part of grammar A after the greedy name group).  Returns the
six mim digits, the mapping key, and the inheritance text. -/
def restA (r : List Char) : Option (List Char × Char × List Char) :=
  match r with
  | c0 :: c1 :: r2 =>
    if c0 = ',' ∧ pySpace c1 then
      let ds := r2.takeWhile Char.isDigit
      if ds.length = 6 then
        match r2.dropWhile Char.isDigit with
        | c8 :: c9 :: c10 :: c11 :: tail =>
          if pySpace c8 ∧ c9 = '(' ∧ c10.isDigit ∧ c11 = ')' then
            (tailInh tail).map fun g5 => (ds, c10, g5)
          else none
        | _ => none
      else none
    else none
  | _ => none

/-- Matching of `\((\d)\)(|, (.*))$` against a suffix of the segment (the
part of grammar B after the greedy name group). -/
def restB (r : List Char) : Option (Char × List Char) :=
  match r with
  | c9 :: c10 :: c11 :: tail =>
    if c9 = '(' ∧ c10.isDigit ∧ c11 = ')' then
      (tailInh tail).map fun g5 => (c10, g5)
    else none
  | _ => none

/-- One attempt of grammar A with the greedy name group bound to the
first `i` characters of the segment. -/
def stepA (s : List Char) (i : Nat) : Option PhenotypeEntry :=
  (restA (s.drop i)).map fun r =>
    { name := s.take i
      mim_number := some r.1
      mapping_key := r.2.1
      inheritance := inhOf r.2.2 }

/-- One attempt of grammar B with the greedy name group bound to the
first `i` characters of the segment. -/
def stepB (s : List Char) (i : Nat) : Option PhenotypeEntry :=
  (restB (s.drop i)).map fun r =>
    { name := s.take i
      mim_number := none
      mapping_key := r.1
      inheritance := inhOf r.2 }

/-- Grammar A, `re.match(r'^(.*),\s(\d{6})\s\((\d)\)(|, (.*))$', s)`:
the greedy `(.*)` takes the longest prefix whose suffix matches the rest,
so the split positions are scanned from the right. -/
def matchA (s : List Char) : Option PhenotypeEntry :=
  (List.range s.length).reverse.findSome? (stepA s)

/-- Grammar B, `re.match(r'^(.*)\((\d)\)(|, (.*))$', s)`. -/
def matchB (s : List Char) : Option PhenotypeEntry :=
  (List.range s.length).reverse.findSome? (stepB s)

/-- One iteration of the `for phenotype in phenotype_string.split(';')`
loop body, after the `phenotype.strip()`: grammar A first, then grammar B,
else the segment is dropped (`continue`). -/
def parseSegment (s : List Char) : Option PhenotypeEntry :=
  match matchA s with
  | some e => some e
  | none => matchB s

/-- The whole phenotype loop: split on `;`, strip each segment, keep the
entries of the segments matching a grammar, in order. -/
def parsePhenotypes (ps : List Char) : List PhenotypeEntry :=
  (splitSemi ps).filterMap fun seg => parseSegment (pyStrip seg)

/-- One record per valid input row (the dict returned by `process_line`).
The Python names are kept; `phenotypes` holds the parsed entries. -/
structure GeneRecord where
  chromosome : List Char
  genomic_position_start : List Char
  genomic_position_end : List Char
  cyto_location : List Char
  computed_cyto_location : List Char
  mim_number : List Char
  gene_symbols : List Char
  gene_name : List Char
  approved_gene_symbol : List Char
  entrez_gene_id : List Char
  ensembl_gene_id : List Char
  comments : List Char
  mouse : List Char
  phenotypes : List PhenotypeEntry
  deriving DecidableEq, Repr

deriving instance DecidableEq for Except

/-- Python `line.startswith('#')` (on the raw, unstripped line). -/
def startsHash : List Char → Bool
  | [] => false
  | c :: _ => c = '#'

/-- The text of the `ValueError` raised on a bad column count. -/
def errHead : List Char := "Unexpected number of columns in line: ".toList

/-- `process_line`: `Except.error` models the raised `ValueError`,
`Except.ok none` the `return None` paths, `Except.ok (some r)` a record.
The tuple unpacking binds position 12 to `phenotype_string` and
position 13 to `mouse`; it raises exactly when the stripped line splits
into more than 14 fields (fewer than 14 returns `None` first).  The
`if not phenotype_string` test is on the raw field, with no stripping.
The final comprehension keeps truthy entries; every returned dict is a
non-empty dict, hence truthy, so only `None` entries are dropped. -/
def process_line (line : List Char) : Except (List Char) (Option GeneRecord) :=
  if startsHash line = true ∨ pyStrip line = [] then Except.ok none
  else
    let vals := splitTab (pyStrip line)
    if vals.length < 14 then Except.ok none
    else if vals.length = 14 then
      if vals.getD 12 [] = [] then Except.ok none
      else Except.ok (some
        { chromosome := vals.getD 0 []
          genomic_position_start := vals.getD 1 []
          genomic_position_end := vals.getD 2 []
          cyto_location := vals.getD 3 []
          computed_cyto_location := vals.getD 4 []
          mim_number := vals.getD 5 []
          gene_symbols := vals.getD 6 []
          gene_name := vals.getD 7 []
          approved_gene_symbol := vals.getD 8 []
          entrez_gene_id := vals.getD 9 []
          ensembl_gene_id := vals.getD 10 []
          comments := vals.getD 11 []
          mouse := vals.getD 13 []
          phenotypes := parsePhenotypes (vals.getD 12 []) })
    else Except.error (errHead ++ line)

/-- `pool.map(process_line, lines)`: every line is processed; an exception
raised by any task propagates out of the map (the leftmost one is
delivered), and no result list is produced. -/
def mapLines : List (List Char) → Except (List Char) (List (Option GeneRecord))
  | [] => Except.ok []
  | l :: ls =>
    match process_line l with
    | Except.error e => Except.error e
    | Except.ok r =>
      match mapLines ls with
      | Except.error e => Except.error e
      | Except.ok rs => Except.ok (r :: rs)

/-- `parse_genemap2` on an already-read list of lines: map `process_line`
over the lines, then `[entry for entry in parsed_data if entry]`. -/
def parse_genemap2 (lines : List (List Char)) : Except (List Char) (List GeneRecord) :=
  match mapLines lines with
  | Except.error e => Except.error e
  | Except.ok rs => Except.ok (rs.filterMap id)

/-- Modelled from the spec (for the refinement claim): "applying
process_line to each line in order and keeping the non-skip results". -/
def specRecords (lines : List (List Char)) : List GeneRecord :=
  lines.filterMap fun l =>
    match process_line l with
    | Except.ok (some r) => some r
    | _ => none

/-- A row overflows when it is a data line whose stripped content splits
into more than 14 tab-separated fields. -/
def isOverflow (l : List Char) : Prop :=
  startsHash l = false ∧ pyStrip l ≠ [] ∧ 14 < (splitTab (pyStrip l)).length

instance (l : List Char) : Decidable (isOverflow l) := by
  unfold isOverflow
  infer_instance

/-- Helper for C4: `Except.ok`-ness as a boolean, so the no-fatal-error
hypothesis is decidable on concrete inputs. -/
def exceptOk (e : Except (List Char) (Option GeneRecord)) : Bool :=
  match e with
  | Except.ok _ => true
  | Except.error _ => false

/-! ### Lemmas about the splitting and stripping primitives -/

theorem splitOnChar_ne_nil (sep : Char) (l : List Char) : splitOnChar sep l ≠ [] := by
  induction l with
  | nil => simp [splitOnChar]
  | cons c rest ih =>
    simp only [splitOnChar]
    by_cases h : c = sep
    · simp [h]
    · rw [if_neg h]
      cases hs : splitOnChar sep rest with
      | nil => simp
      | cons hd tl => simp

theorem length_splitOnChar (sep : Char) (l : List Char) :
    (splitOnChar sep l).length = l.count sep + 1 := by
  induction l with
  | nil => simp [splitOnChar]
  | cons c rest ih =>
    simp only [splitOnChar]
    by_cases h : c = sep
    · subst h
      rw [if_pos rfl]
      simp only [List.length_cons, List.count_cons, ih]
      simp
    · rw [if_neg h]
      cases hs : splitOnChar sep rest with
      | nil => exact absurd hs (splitOnChar_ne_nil sep rest)
      | cons hd tl =>
        rw [hs] at ih
        simp only [List.length_cons] at ih ⊢
        simp [List.count_cons, h, ih]

theorem splitOnChar_getLast_nil (sep : Char) (l : List Char)
    (h : (splitOnChar sep l).getLast? = some []) :
    l = [] ∨ ∃ lp, l = lp ++ [sep] := by
  induction l with
  | nil => exact Or.inl rfl
  | cons c rest ih =>
    right
    simp only [splitOnChar] at h
    by_cases hc : c = sep
    · rw [if_pos hc] at h
      cases hs : splitOnChar sep rest with
      | nil => exact absurd hs (splitOnChar_ne_nil sep rest)
      | cons hd tl =>
        rw [hs, List.getLast?_cons_cons, ← hs] at h
        rcases ih h with rfl | ⟨lp, rfl⟩
        · exact ⟨[], by simp [hc]⟩
        · exact ⟨c :: lp, by simp [hc]⟩
    · rw [if_neg hc] at h
      cases hs : splitOnChar sep rest with
      | nil => exact absurd hs (splitOnChar_ne_nil sep rest)
      | cons hd tl =>
        rw [hs] at h
        cases tl with
        | nil =>
          rw [List.getLast?_singleton] at h
          cases h
        | cons t0 ts =>
          rw [List.getLast?_cons_cons] at h
          have h2 : (splitOnChar sep rest).getLast? = some [] := by
            rw [hs, List.getLast?_cons_cons]
            exact h
          rcases ih h2 with rfl | ⟨lp, rfl⟩
          · rw [show splitOnChar sep ([] : List Char) = [[]] from rfl] at hs
            cases hs
          · exact ⟨c :: lp, by simp⟩

theorem dropTrailing_append_space (l : List Char) (c : Char) (hc : pySpace c = true) :
    dropTrailing (l ++ [c]) = dropTrailing l := by
  unfold dropTrailing
  rw [List.reverse_append]
  simp [hc]

theorem pyStrip_append_space (l : List Char) (c : Char) (hc : pySpace c = true) :
    pyStrip (l ++ [c]) = pyStrip l := by
  unfold pyStrip
  rw [dropTrailing_append_space l c hc]

theorem dropTrailing_sublist (l : List Char) : (dropTrailing l).Sublist l := by
  unfold dropTrailing
  have h := (List.dropWhile_sublist (l := l.reverse) pySpace).reverse
  simpa using h

theorem pyStrip_sublist (l : List Char) : (pyStrip l).Sublist l :=
  (List.dropWhile_sublist _).trans (dropTrailing_sublist l)

theorem count_pyStrip_le (l : List Char) (c : Char) :
    (pyStrip l).count c ≤ l.count c :=
  (pyStrip_sublist l).count_le c

theorem startsHash_append (l l2 : List Char) (h : l ≠ []) :
    startsHash (l ++ l2) = startsHash l := by
  cases l with
  | nil => exact absurd rfl h
  | cons c r => rfl

/-! ### A right-to-left scan lemma for the greedy regex matches -/

theorem findSome_rev_range {β : Type} (f : Nat → Option β) (n j : Nat) (hj : j < n)
    (hnone : ∀ t, t < n → j < t → f t = none) (v : β) (hv : f j = some v) :
    ((List.range n).reverse.findSome? f) = some v := by
  induction n with
  | zero => omega
  | succ m ih =>
    rw [List.range_succ, List.reverse_append]
    simp only [List.reverse_cons, List.reverse_nil, List.nil_append, List.singleton_append]
    rw [List.findSome?_cons]
    by_cases hjm : j = m
    · subst hjm
      simp [hv]
    · rw [hnone m (by omega) (by omega)]
      exact ih (by omega) (fun t ht hjt => hnone t (by omega) hjt)

/-! ### Position lemmas for the two suffix matchers -/

theorem restA_cons_ne (c : Char) (r : List Char) (hc : c ≠ ',') :
    restA (c :: r) = none := by
  cases r with
  | nil => rfl
  | cons c1 r2 => simp [restA, hc]

theorem restA_drop_no_comma (r : List Char) (h : ∀ c ∈ r, c ≠ ',') :
    ∀ j, restA (r.drop j) = none := by
  induction r with
  | nil =>
    intro j
    rw [List.drop_nil]
    rfl
  | cons c rest ih =>
    intro j
    cases j with
    | zero => exact restA_cons_ne c rest (h c (by simp))
    | succ jj =>
      rw [List.drop_succ_cons]
      exact ih (fun x hx => h x (by simp [hx])) jj

theorem restA_drop_append (l r : List Char) (hl : ∀ c ∈ l, c ≠ ',')
    (hr : ∀ j, restA (r.drop j) = none) : ∀ i, restA ((l ++ r).drop i) = none := by
  induction l with
  | nil =>
    intro i
    simpa using hr i
  | cons c rest ih =>
    intro i
    cases i with
    | zero =>
      rw [List.drop_zero, List.cons_append]
      exact restA_cons_ne c (rest ++ r) (hl c (by simp))
    | succ ii =>
      rw [List.cons_append, List.drop_succ_cons]
      exact ih (fun x hx => hl x (by simp [hx])) ii

theorem restB_cons_ne (c : Char) (r : List Char) (hc : c ≠ '(') :
    restB (c :: r) = none := by
  cases r with
  | nil => rfl
  | cons c1 r2 =>
    cases r2 with
    | nil => rfl
    | cons c2 r3 => simp [restB, hc]

/-! ### Branch lemmas for `process_line` -/

/-- The three row-level skip conditions: comment, blank, or fewer than 14
fields after the strip-and-split. -/
theorem process_line_skip3 (line : List Char)
    (h : startsHash line = true ∨ pyStrip line = [] ∨
      (splitTab (pyStrip line)).length < 14) :
    process_line line = Except.ok none := by
  by_cases h0 : startsHash line = true ∨ pyStrip line = []
  · simp only [process_line, if_pos h0]
  · have hlt : (splitTab (pyStrip line)).length < 14 := by
      rcases h with h | h | h
      · exact absurd (Or.inl h) h0
      · exact absurd (Or.inr h) h0
      · exact h
    simp only [process_line, if_neg h0, if_pos hlt]

/-- The record produced for a well-shaped row, with the positional
bindings of the 14 fields. -/
theorem process_line_valid (line : List Char)
    (hh : startsHash line = false)
    (hs : pyStrip line ≠ [])
    (h14 : (splitTab (pyStrip line)).length = 14)
    (hph : (splitTab (pyStrip line)).getD 12 [] ≠ []) :
    process_line line = Except.ok (some
      { chromosome := (splitTab (pyStrip line)).getD 0 []
        genomic_position_start := (splitTab (pyStrip line)).getD 1 []
        genomic_position_end := (splitTab (pyStrip line)).getD 2 []
        cyto_location := (splitTab (pyStrip line)).getD 3 []
        computed_cyto_location := (splitTab (pyStrip line)).getD 4 []
        mim_number := (splitTab (pyStrip line)).getD 5 []
        gene_symbols := (splitTab (pyStrip line)).getD 6 []
        gene_name := (splitTab (pyStrip line)).getD 7 []
        approved_gene_symbol := (splitTab (pyStrip line)).getD 8 []
        entrez_gene_id := (splitTab (pyStrip line)).getD 9 []
        ensembl_gene_id := (splitTab (pyStrip line)).getD 10 []
        comments := (splitTab (pyStrip line)).getD 11 []
        mouse := (splitTab (pyStrip line)).getD 13 []
        phenotypes := parsePhenotypes ((splitTab (pyStrip line)).getD 12 []) }) := by
  have h0 : ¬ (startsHash line = true ∨ pyStrip line = []) := by
    simp [hh, hs]
  simp only [process_line, if_neg h0, if_neg (by omega : ¬ (splitTab (pyStrip line)).length < 14),
    if_pos h14, if_neg hph]

theorem overflow_error (l : List Char) (h : isOverflow l) :
    process_line l = Except.error (errHead ++ l) := by
  rcases h with ⟨hh, hs, hlen⟩
  have h0 : ¬ (startsHash l = true ∨ pyStrip l = []) := by
    simp [hh, hs]
  simp only [process_line, if_neg h0,
    if_neg (by omega : ¬ (splitTab (pyStrip l)).length < 14),
    if_neg (by omega : ¬ (splitTab (pyStrip l)).length = 14)]

theorem process_line_ok_of_not_overflow (l : List Char) (h : ¬ isOverflow l) :
    ∃ r, process_line l = Except.ok r := by
  by_cases h0 : startsHash l = true ∨ pyStrip l = []
  · exact ⟨none, by simp only [process_line, if_pos h0]⟩
  · have hh : startsHash l = false := by
      rcases Bool.eq_false_or_eq_true (startsHash l) with hb | hb
      · exact absurd (Or.inl hb) h0
      · exact hb
    have hs : pyStrip l ≠ [] := fun he => h0 (Or.inr he)
    by_cases hlt : (splitTab (pyStrip l)).length < 14
    · exact ⟨none, process_line_skip3 l (Or.inr (Or.inr hlt))⟩
    · have h14 : (splitTab (pyStrip l)).length = 14 := by
        unfold isOverflow at h
        push_neg at h
        have := h hh hs
        omega
      by_cases hph : (splitTab (pyStrip l)).getD 12 [] = []
      · exact ⟨none, by
          simp only [process_line, if_neg h0, if_neg hlt, if_pos h14, if_pos hph]⟩
      · exact ⟨_, process_line_valid l hh hs h14 hph⟩

/-! ### The claims -/

/-- C5: the segment `"Retinitis pigmentosa, 268000 (3), Autosomal recessive"`
matches grammar A and parses to the entry with name
`"Retinitis pigmentosa"`, mim number `"268000"`, mapping key `'3'` and the
one-element inheritance list `["Autosomal recessive"]`. -/
theorem c5_grammarA_example :
    matchA "Retinitis pigmentosa, 268000 (3), Autosomal recessive".toList =
      some { name := "Retinitis pigmentosa".toList
             mim_number := some "268000".toList
             mapping_key := '3'
             inheritance := ["Autosomal recessive".toList] } ∧
    parseSegment "Retinitis pigmentosa, 268000 (3), Autosomal recessive".toList =
      some { name := "Retinitis pigmentosa".toList
             mim_number := some "268000".toList
             mapping_key := '3'
             inheritance := ["Autosomal recessive".toList] } := by
  decide

/-- C8: a comment line, a line blank after stripping, or a line whose
stripped content splits into fewer than 14 tab-separated fields is
skipped: no record and no error. -/
theorem c8_skip_rows (line : List Char)
    (h : startsHash line = true ∨ pyStrip line = [] ∨
      (splitTab (pyStrip line)).length < 14) :
    process_line line = Except.ok none :=
  process_line_skip3 line h

theorem c8_skip_rows_witness :
    process_line "a\tb\tc\td\te\tf\tg\th\ti\tj\tk\tl\tm".toList = Except.ok none :=
  c8_skip_rows _ (Or.inr (Or.inr (by decide)))

/-- C1 (counterexample): this line splits into exactly 14 fields and its
phenotype field (position 12) is the single space `" "`, empty after
trimming; yet `process_line` produces a record, because the code tests
`if not phenotype_string` without stripping the field. -/
theorem c1_counterexample :
    pyStrip ((splitTab (pyStrip
        "1\t2\t3\t4\t5\t6\t7\t8\t9\t10\t11\t12\t \tmm".toList)).getD 12 []) = [] ∧
    (splitTab (pyStrip
        "1\t2\t3\t4\t5\t6\t7\t8\t9\t10\t11\t12\t \tmm".toList)).length = 14 ∧
    process_line "1\t2\t3\t4\t5\t6\t7\t8\t9\t10\t11\t12\t \tmm".toList ≠
      Except.ok none ∧
    process_line "1\t2\t3\t4\t5\t6\t7\t8\t9\t10\t11\t12\t \tmm".toList =
      Except.ok (some
        { chromosome := "1".toList
          genomic_position_start := "2".toList
          genomic_position_end := "3".toList
          cyto_location := "4".toList
          computed_cyto_location := "5".toList
          mim_number := "6".toList
          gene_symbols := "7".toList
          gene_name := "8".toList
          approved_gene_symbol := "9".toList
          entrez_gene_id := "10".toList
          ensembl_gene_id := "11".toList
          comments := "12".toList
          mouse := "mm".toList
          phenotypes := [] }) := by
  decide

/-- C1 (amended): a 14-field row is skipped exactly when its phenotype
field (position 12) is the empty string; no trimming is applied to the
field before the emptiness test. -/
theorem c1_empty_field_skips (line : List Char)
    (h14 : (splitTab (pyStrip line)).length = 14)
    (hph : (splitTab (pyStrip line)).getD 12 [] = []) :
    process_line line = Except.ok none := by
  by_cases h0 : startsHash line = true ∨ pyStrip line = []
  · simp only [process_line, if_pos h0]
  · simp only [process_line, if_neg h0,
      if_neg (by omega : ¬ (splitTab (pyStrip line)).length < 14),
      if_pos h14, if_pos hph]

theorem c1_empty_field_skips_witness :
    process_line "1\t2\t3\t4\t5\t6\t7\t8\t9\t10\t11\t12\t\tmm".toList =
      Except.ok none :=
  c1_empty_field_skips _ (by decide) (by decide)

/-- C2 (counterexample): in this 14-field line the field at zero-indexed
position 12 is `"Pheno(1)"` and the field at position 13 is `"MOUSE"`;
`process_line` binds `mouse` to position 13, not 12, and hands position
12 (not 13) to the phenotype annotation parser. -/
theorem c2_counterexample :
    (splitTab (pyStrip
        "1\t2\t3\t4\t5\t6\t7\t8\t9\t10\t11\t12\tPheno(1)\tMOUSE".toList)).getD 12 [] =
      "Pheno(1)".toList ∧
    (splitTab (pyStrip
        "1\t2\t3\t4\t5\t6\t7\t8\t9\t10\t11\t12\tPheno(1)\tMOUSE".toList)).getD 13 [] =
      "MOUSE".toList ∧
    process_line "1\t2\t3\t4\t5\t6\t7\t8\t9\t10\t11\t12\tPheno(1)\tMOUSE".toList =
      Except.ok (some
        { chromosome := "1".toList
          genomic_position_start := "2".toList
          genomic_position_end := "3".toList
          cyto_location := "4".toList
          computed_cyto_location := "5".toList
          mim_number := "6".toList
          gene_symbols := "7".toList
          gene_name := "8".toList
          approved_gene_symbol := "9".toList
          entrez_gene_id := "10".toList
          ensembl_gene_id := "11".toList
          comments := "12".toList
          mouse := "MOUSE".toList
          phenotypes := [{ name := "Pheno".toList
                           mim_number := none
                           mapping_key := '1'
                           inheritance := [] }] }) ∧
    "MOUSE".toList ≠ "Pheno(1)".toList := by
  decide

/-- C2 (amended): the 14 fields are bound positionally with positions 0
to 11 as declared, position 12 as the phenotype field handed to the
annotation parser, and position 13 bound to `mouse`. -/
theorem c2_positional_binding (line : List Char)
    (hh : startsHash line = false)
    (hs : pyStrip line ≠ [])
    (h14 : (splitTab (pyStrip line)).length = 14)
    (hph : (splitTab (pyStrip line)).getD 12 [] ≠ []) :
    process_line line = Except.ok (some
      { chromosome := (splitTab (pyStrip line)).getD 0 []
        genomic_position_start := (splitTab (pyStrip line)).getD 1 []
        genomic_position_end := (splitTab (pyStrip line)).getD 2 []
        cyto_location := (splitTab (pyStrip line)).getD 3 []
        computed_cyto_location := (splitTab (pyStrip line)).getD 4 []
        mim_number := (splitTab (pyStrip line)).getD 5 []
        gene_symbols := (splitTab (pyStrip line)).getD 6 []
        gene_name := (splitTab (pyStrip line)).getD 7 []
        approved_gene_symbol := (splitTab (pyStrip line)).getD 8 []
        entrez_gene_id := (splitTab (pyStrip line)).getD 9 []
        ensembl_gene_id := (splitTab (pyStrip line)).getD 10 []
        comments := (splitTab (pyStrip line)).getD 11 []
        mouse := (splitTab (pyStrip line)).getD 13 []
        phenotypes := parsePhenotypes ((splitTab (pyStrip line)).getD 12 []) }) :=
  process_line_valid line hh hs h14 hph

theorem c2_positional_binding_witness :
    process_line "1\t2\t3\t4\t5\t6\t7\t8\t9\t10\t11\t12\tPheno(2)\tMm1".toList =
      Except.ok (some
        { chromosome := "1".toList
          genomic_position_start := "2".toList
          genomic_position_end := "3".toList
          cyto_location := "4".toList
          computed_cyto_location := "5".toList
          mim_number := "6".toList
          gene_symbols := "7".toList
          gene_name := "8".toList
          approved_gene_symbol := "9".toList
          entrez_gene_id := "10".toList
          ensembl_gene_id := "11".toList
          comments := "12".toList
          mouse := "Mm1".toList
          phenotypes := [{ name := "Pheno".toList
                           mim_number := none
                           mapping_key := '2'
                           inheritance := [] }] }) :=
  c2_positional_binding _ (by decide) (by decide) (by decide) (by decide)

/-- C7: a segment matching neither grammar is dropped silently, and a
well-shaped row all of whose segments fail both grammars still produces
a record whose phenotype list is empty. -/
theorem c7_unmatched_dropped (line : List Char)
    (hh : startsHash line = false)
    (hs : pyStrip line ≠ [])
    (h14 : (splitTab (pyStrip line)).length = 14)
    (hph : (splitTab (pyStrip line)).getD 12 [] ≠ [])
    (hall : ∀ seg ∈ splitSemi ((splitTab (pyStrip line)).getD 12 []),
      matchA (pyStrip seg) = none ∧ matchB (pyStrip seg) = none) :
    ∃ rec, process_line line = Except.ok (some rec) ∧ rec.phenotypes = [] := by
  refine ⟨_, process_line_valid line hh hs h14 hph, ?_⟩
  simp only [parsePhenotypes, List.filterMap_eq_nil_iff]
  intro seg hseg
  rcases hall seg hseg with ⟨ha, hb⟩
  simp [parseSegment, ha, hb]

theorem c7_unmatched_dropped_witness :
    ∃ rec,
      process_line
          "1\t2\t3\t4\t5\t6\t7\t8\t9\t10\t11\t12\tmalformed entry without parens\tmm".toList =
        Except.ok (some rec) ∧ rec.phenotypes = [] :=
  c7_unmatched_dropped _ (by decide) (by decide) (by decide) (by decide) (by decide)

/-- C3: when some data line of the batch splits (after stripping) into
more than 14 tab-separated fields, `parse_genemap2` returns an error
whose message is the error text followed by that raw line, and delivers
no record list at all. -/
theorem c3_overflow_aborts (lines : List (List Char))
    (h : ∃ l ∈ lines, isOverflow l) :
    ∃ l ∈ lines, isOverflow l ∧
      parse_genemap2 lines = Except.error (errHead ++ l) := by
  induction lines with
  | nil => simp at h
  | cons a as ih =>
    by_cases ha : isOverflow a
    · refine ⟨a, by simp, ha, ?_⟩
      simp only [parse_genemap2, mapLines, overflow_error a ha]
    · rcases h with ⟨l, hl, hlo⟩
      have hl2 : l ∈ as := by
        rcases List.mem_cons.mp hl with rfl | h2
        · exact absurd hlo ha
        · exact h2
      rcases ih ⟨l, hl2, hlo⟩ with ⟨l3, hl3, hlo3, herr⟩
      refine ⟨l3, by simp [hl3], hlo3, ?_⟩
      rcases process_line_ok_of_not_overflow a ha with ⟨r, hr⟩
      have hm : mapLines as = Except.error (errHead ++ l3) := by
        simp only [parse_genemap2] at herr
        cases hmas : mapLines as with
        | error e => rw [hmas] at herr; cases herr; rfl
        | ok rs => rw [hmas] at herr; cases herr
      simp only [parse_genemap2, mapLines, hr, hm]

theorem c3_overflow_aborts_witness :
    ∃ l ∈ ["# comment".toList,
           "a\tb\tc\td\te\tf\tg\th\ti\tj\tk\tl\tm\tn\to".toList],
      isOverflow l ∧
        parse_genemap2
            ["# comment".toList,
             "a\tb\tc\td\te\tf\tg\th\ti\tj\tk\tl\tm\tn\to".toList] =
          Except.error (errHead ++ l) :=
  c3_overflow_aborts _ (by decide)

/-- C4: when no line raises the fatal error, `parse_genemap2` equals the
sequence obtained by applying `process_line` to each line in order and
keeping the non-skip results (`specRecords`). -/
theorem c4_refines_filter (lines : List (List Char))
    (h : ∀ l ∈ lines, exceptOk (process_line l) = true) :
    parse_genemap2 lines = Except.ok (specRecords lines) := by
  induction lines with
  | nil => rfl
  | cons a as ih =>
    have ha : ∃ r, process_line a = Except.ok r := by
      have := h a (by simp)
      cases hp : process_line a with
      | ok r => exact ⟨r, rfl⟩
      | error e => rw [hp] at this; simp [exceptOk] at this
    rcases ha with ⟨r, hr⟩
    have has : parse_genemap2 as = Except.ok (specRecords as) :=
      ih fun l hl => h l (by simp [hl])
    simp only [parse_genemap2] at has
    cases hmas : mapLines as with
    | error e => rw [hmas] at has; cases has
    | ok rs =>
      rw [hmas] at has
      have hrs : rs.filterMap id = specRecords as := Except.ok.inj has
      simp only [parse_genemap2, mapLines, hr, hmas]
      cases r with
      | none =>
        simp only [specRecords, List.filterMap_cons, hr, List.filterMap_cons_none,
          hrs]
        simp [specRecords]
      | some g =>
        simp only [specRecords, List.filterMap_cons, hr]
        simp [hrs, specRecords]

theorem c4_refines_filter_witness :
    parse_genemap2
        ["# comment".toList,
         "".toList,
         "1\t2\t3\t4\t5\t6\t7\t8\t9\t10\t11\t12\tPheno(1)\tmm".toList,
         "a\tb\tc".toList] =
      Except.ok (specRecords
        ["# comment".toList,
         "".toList,
         "1\t2\t3\t4\t5\t6\t7\t8\t9\t10\t11\t12\tPheno(1)\tmm".toList,
         "a\tb\tc".toList]) :=
  c4_refines_filter _ (by decide)

/-- C6: when the grammar-A suffix pattern `, NNNNNN (n)[...]` matches at
two positions `i < j` of the segment and `j` is the right-most matching
position, the greedy name group wins the right-most occurrence: the
entry's mim number and mapping key come from position `j` and the name is
everything before it, `s.take j`. -/
theorem c6_greedy_rightmost (s : List Char) (i j : Nat) (_hij : i < j)
    (hj : j < s.length)
    (_hi : (restA (s.drop i)).isSome = true)
    (ds : List Char) (k : Char) (g5 : List Char)
    (hjm : restA (s.drop j) = some (ds, k, g5))
    (hlast : ∀ t, t < s.length → j < t → restA (s.drop t) = none) :
    matchA s = some { name := s.take j
                      mim_number := some ds
                      mapping_key := k
                      inheritance := inhOf g5 } := by
  unfold matchA
  refine findSome_rev_range (stepA s) s.length j hj ?_ _ ?_
  · intro t ht hjt
    simp only [stepA, hlast t ht hjt, Option.map_none']
  · simp only [stepA, hjm, Option.map_some']

theorem c6_greedy_rightmost_witness :
    matchA "A, 111111 (1), 222222 (2)".toList =
      some { name := "A, 111111 (1)".toList
             mim_number := some "222222".toList
             mapping_key := '2'
             inheritance := [] } :=
  c6_greedy_rightmost "A, 111111 (1), 222222 (2)".toList 1 13 (by decide)
    (by decide) (by decide) "222222".toList '2' [] (by decide)
    (by
      intro t ht hgt
      rw [(by decide : ("A, 111111 (1), 222222 (2)".toList).length = 25)] at ht
      interval_cases t <;> decide)

/-- C9: a line whose raw tab-split has exactly 14 fields, the last of
them empty (the content ends in a tab), is skipped with no record and no
error, with or without a trailing newline: the strip removes the final
tab, so the stripped line splits into at most 13 fields. -/
theorem c9_trailing_tab_skip (line : List Char)
    (h14 : (splitTab line).length = 14)
    (hlast : (splitTab line).getLast? = some []) :
    process_line line = Except.ok none ∧
    process_line (line ++ ['\n']) = Except.ok none := by
  simp only [splitTab] at h14 hlast
  rcases splitOnChar_getLast_nil '\t' line hlast with rfl | ⟨lp, rfl⟩
  · simp [splitOnChar] at h14
  · have hlen := length_splitOnChar '\t' (lp ++ ['\t'])
    have hc : (lp ++ ['\t']).count '\t' = 13 := by omega
    have hlp : lp.count '\t' = 12 := by
      rw [List.count_append] at hc
      simp at hc
      omega
    have hstrip : pyStrip (lp ++ ['\t']) = pyStrip lp :=
      pyStrip_append_space lp '\t' (by decide)
    have hlt : (splitTab (pyStrip (lp ++ ['\t']))).length < 14 := by
      rw [hstrip]
      have h1 : (pyStrip lp).count '\t' ≤ 12 := hlp ▸ count_pyStrip_le lp '\t'
      have h2 := length_splitOnChar '\t' (pyStrip lp)
      simp only [splitTab]
      omega
    refine ⟨process_line_skip3 _ (Or.inr (Or.inr hlt)), ?_⟩
    refine process_line_skip3 _ (Or.inr (Or.inr ?_))
    have hstr2 : pyStrip ((lp ++ ['\t']) ++ ['\n']) = pyStrip (lp ++ ['\t']) :=
      pyStrip_append_space _ '\n' (by decide)
    rw [hstr2]
    exact hlt

theorem c9_trailing_tab_skip_witness :
    process_line "1\t2\t3\t4\t5\t6\t7\t8\t9\t10\t11\t12\tph\t".toList =
      Except.ok none ∧
    process_line ("1\t2\t3\t4\t5\t6\t7\t8\t9\t10\t11\t12\tph\t".toList ++ ['\n']) =
      Except.ok none :=
  c9_trailing_tab_skip _ (by decide) (by decide)

/-- C10: a segment shaped `<name>, <digits> (<key>)` whose digit run is
not exactly 6 digits long fails grammar A everywhere; grammar B then
matches at the closing parenthesis, so the entry has no mim number and
its name still carries the comma, the digits and a trailing space. -/
theorem c10_short_mim_fallback (nm ds s : List Char) (k : Char)
    (hs : s = nm ++ ',' :: ' ' :: (ds ++ [' ', '(', k, ')']))
    (hnm : ∀ c ∈ nm, c ≠ ',')
    (hds : ∀ c ∈ ds, c.isDigit = true)
    (hlen : ds.length ≠ 6)
    (hk : k.isDigit = true) :
    matchA s = none ∧
    matchB s = some { name := nm ++ ',' :: ' ' :: (ds ++ [' '])
                      mim_number := none
                      mapping_key := k
                      inheritance := [] } ∧
    parseSegment s = some { name := nm ++ ',' :: ' ' :: (ds ++ [' '])
                            mim_number := none
                            mapping_key := k
                            inheritance := [] } := by
  subst hs
  have htw : (ds ++ [' ', '(', k, ')']).takeWhile Char.isDigit = ds := by
    rw [List.takeWhile_append_of_pos (fun a ha => hds a ha)]
    rw [List.takeWhile_cons_of_neg (by decide), List.append_nil]
  have hr0 : restA (',' :: ' ' :: (ds ++ [' ', '(', k, ')'])) = none := by
    simp [restA, htw, hlen]
  have hA : ∀ i, restA ((nm ++ ',' :: ' ' :: (ds ++ [' ', '(', k, ')'])).drop i) = none := by
    apply restA_drop_append _ _ hnm
    intro j
    cases j with
    | zero =>
      rw [List.drop_zero]
      exact hr0
    | succ jj =>
      rw [List.drop_succ_cons]
      apply restA_drop_no_comma
      intro c hc
      rcases List.mem_cons.mp hc with rfl | hc2
      · decide
      rcases List.mem_append.mp hc2 with hc3 | hc4
      · intro he
        subst he
        exact absurd (hds ',' hc3) (by decide)
      · simp only [List.mem_cons, List.not_mem_nil, or_false] at hc4
        rcases hc4 with rfl | rfl | rfl | rfl
        · decide
        · decide
        · intro he
          subst he
          exact absurd hk (by decide)
        · decide
  have hAnone : matchA (nm ++ ',' :: ' ' :: (ds ++ [' ', '(', k, ')'])) = none := by
    unfold matchA
    rw [List.findSome?_eq_none_iff]
    intro x hx
    simp only [stepA, hA x, Option.map_none']
  have hpre : nm ++ ',' :: ' ' :: (ds ++ [' ', '(', k, ')']) =
      (nm ++ ',' :: ' ' :: (ds ++ [' '])) ++ ['(', k, ')'] := by
    simp
  have hlenS : (nm ++ ',' :: ' ' :: (ds ++ [' ', '(', k, ')'])).length =
      (nm ++ ',' :: ' ' :: (ds ++ [' '])).length + 3 := by
    simp [List.length_append]
    omega
  have hBsome : matchB (nm ++ ',' :: ' ' :: (ds ++ [' ', '(', k, ')'])) =
      some { name := nm ++ ',' :: ' ' :: (ds ++ [' '])
             mim_number := none
             mapping_key := k
             inheritance := [] } := by
    unfold matchB
    refine findSome_rev_range _ _ (nm ++ ',' :: ' ' :: (ds ++ [' '])).length
      (by omega) ?_ _ ?_
    · intro t ht hgt
      have ht2 : t = (nm ++ ',' :: ' ' :: (ds ++ [' '])).length + 1 ∨
          t = (nm ++ ',' :: ' ' :: (ds ++ [' '])).length + 2 := by omega
      have hd1 : (nm ++ ',' :: ' ' :: (ds ++ [' ', '(', k, ')'])).drop
          ((nm ++ ',' :: ' ' :: (ds ++ [' '])).length + 1) = [k, ')'] := by
        rw [hpre, ← List.drop_drop, List.drop_left]
        rfl
      have hd2 : (nm ++ ',' :: ' ' :: (ds ++ [' ', '(', k, ')'])).drop
          ((nm ++ ',' :: ' ' :: (ds ++ [' '])).length + 2) = [')'] := by
        rw [hpre, ← List.drop_drop, List.drop_left]
        rfl
      rcases ht2 with rfl | rfl
      · simp only [stepB, hd1]
        rfl
      · simp only [stepB, hd2]
        rfl
    · have hd0 : (nm ++ ',' :: ' ' :: (ds ++ [' ', '(', k, ')'])).drop
          (nm ++ ',' :: ' ' :: (ds ++ [' '])).length = ['(', k, ')'] := by
        rw [hpre, List.drop_left]
      have htk : (nm ++ ',' :: ' ' :: (ds ++ [' ', '(', k, ')'])).take
          (nm ++ ',' :: ' ' :: (ds ++ [' '])).length =
          nm ++ ',' :: ' ' :: (ds ++ [' ']) := by
        rw [hpre, List.take_left]
      have hrB : restB ['(', k, ')'] = some (k, []) := by
        simp [restB, tailInh, hk]
      simp only [stepB, hd0, hrB, htk, Option.map_some']
      simp [inhOf]
  refine ⟨hAnone, hBsome, ?_⟩
  simp only [parseSegment, hAnone, hBsome]

theorem c10_short_mim_fallback_witness :
    matchA "Some disease, 12345 (1)".toList = none ∧
    matchB "Some disease, 12345 (1)".toList =
      some { name := "Some disease, 12345 ".toList
             mim_number := none
             mapping_key := '1'
             inheritance := [] } ∧
    parseSegment "Some disease, 12345 (1)".toList =
      some { name := "Some disease, 12345 ".toList
             mim_number := none
             mapping_key := '1'
             inheritance := [] } :=
  c10_short_mim_fallback "Some disease".toList "12345".toList
    "Some disease, 12345 (1)".toList '1' (by decide) (by decide) (by decide)
    (by decide) (by decide)
